import Mathlib

/- Shallow embedding of the repository's two Python modules
   (src/in_out.py and src/utils.py).

   Python strings are modelled as lists of characters (PyStr), Python
   exceptions as Except values, and calls into external libraries
   (pandas, the brokerage SDK) as abstract result constructors or as
   oracle parameters supplying the outcomes of the external calls.
   Dates and times are modelled in whole minutes. -/

abbrev PyStr := List Char

/-- Python exceptions that the embedded code can raise. -/
inductive PyExc where
  | indexError
  | keyError (key : PyStr)
deriving DecidableEq

/-- Python str.startswith for a pattern, on the character-list model:
true iff the second list begins with the first. -/
def leadsWith : PyStr → PyStr → Bool
  | [], _ => true
  | _ :: _, [] => false
  | p :: ps, c :: cs => p == c && leadsWith ps cs

/-- Python str.split(sep) for a single-character separator: splits at every
occurrence of sep; the empty string splits to [""]. -/
def pySplitChar (sep : Char) : PyStr → List PyStr
  | [] => [[]]
  | c :: cs =>
    if c = sep then [] :: pySplitChar sep cs
    else
      match pySplitChar sep cs with
      | [] => [[c]]
      | h :: t => (c :: h) :: t

/-- First occurrence of a (non-empty) pattern inside a string: returns the
text before the occurrence and the text after it, or none when the pattern
does not occur. Helper for Python str.split(sep) and str.replace with a
multi-character separator. -/
def splitAtSub (sep : PyStr) : PyStr → Option (PyStr × PyStr)
  | [] => none
  | c :: cs =>
    if leadsWith sep (c :: cs) then some ([], (c :: cs).drop sep.length)
    else
      match splitAtSub sep cs with
      | none => none
      | some (a, b) => some (c :: a, b)

/-- Fuelled worker for Python str.split(sep) with a multi-character
separator; the fuel (initialised to the string length) strictly bounds the
number of separator occurrences, so it is never exhausted for a non-empty
separator. -/
def pySplitStrFuel : Nat → PyStr → PyStr → List PyStr
  | 0, _, s => [s]
  | f + 1, sep, s =>
    match splitAtSub sep s with
    | none => [s]
    | some (a, b) => a :: pySplitStrFuel f sep b

/-- Python str.split(sep) for a multi-character (non-empty) separator. -/
def pySplitStr (sep s : PyStr) : List PyStr := pySplitStrFuel s.length sep s

/-- Fuelled worker for Python str.replace(pat, rep): replaces each
non-overlapping occurrence of pat, scanning left to right. The fuel
(initialised to the string length) is never exhausted for non-empty pat. -/
def pyReplaceFuel : Nat → PyStr → PyStr → PyStr → PyStr
  | 0, _, _, s => s
  | f + 1, pat, rep, s =>
    match splitAtSub pat s with
    | none => s
    | some (a, b) => a ++ rep ++ pyReplaceFuel f pat rep b

/-- Python str.replace(pat, rep) for a non-empty pattern. -/
def pyReplace (pat rep s : PyStr) : PyStr := pyReplaceFuel s.length pat rep s

/-- Python str.replace(a, b) for single characters (used for backslash to
slash conversion): a per-character map. -/
def pyReplaceChar (a b : Char) (s : PyStr) : PyStr :=
  s.map (fun c => if c = a then b else c)

/-- Python str.lower(), per character (ASCII). -/
def pyLower (s : PyStr) : PyStr := s.map Char.toLower

/-- Python str.upper(), per character (ASCII). -/
def pyUpper (s : PyStr) : PyStr := s.map Char.toUpper

/-- Python sep.join(parts). -/
def pyJoin (sep : PyStr) : List PyStr → PyStr
  | [] => []
  | [x] => x
  | x :: xs => x ++ sep ++ pyJoin sep xs

/- ------------------------------------------------------------------ -/
/- src/in_out.py: path-dialect helpers                                 -/
/- ------------------------------------------------------------------ -/

/-- in_out.is_win: true iff the second character is a colon and the first is
an uppercase letter. Indexing path[1] raises IndexError on strings shorter
than two characters, which the model surfaces as an Except error. -/
def is_win (p : PyStr) : Except PyExc Bool :=
  match p with
  | c0 :: c1 :: _ => .ok (c1 = ':' && c0.isUpper)
  | _ => .error .indexError

/-- in_out.is_linux: true iff the path starts with a forward slash. -/
def is_linux (p : PyStr) : Bool :=
  match p with
  | [] => false
  | c :: _ => c = '/'

/-- in_out.win_to_linux: if already POSIX-style return unchanged; otherwise
split on colons, replace the first part X by /mnt/x (lowercased), join the
parts with the empty string, and replace every backslash by a slash. -/
def win_to_linux (p : PyStr) : PyStr :=
  if is_linux p then p
  else
    let parts := pySplitChar ':' p
    pyReplaceChar '\\' '/'
      (pyJoin [] (("/mnt/".data ++ pyLower (parts.headD [])) :: parts.tail))

/-- in_out.linux_to_win: if already Windows-style return unchanged; otherwise
remove every occurrence of "/mnt/", split on slashes, uppercase the first
part and append a colon, and join with backslashes. The internal is_win call
can raise IndexError (e.g. on a one-character path). -/
def linux_to_win (p : PyStr) : Except PyExc PyStr :=
  match is_win p with
  | .error e => .error e
  | .ok true => .ok p
  | .ok false =>
    let q := pyReplace "/mnt/".data [] p
    let parts := pySplitChar '/' q
    .ok (pyJoin ['\\'] ((pyUpper (parts.headD []) ++ [':']) :: parts.tail))

/-- Host operating system as reported by platform.system().lower(). -/
inductive HostOS where
  | linuxOS
  | windowsOS
  | otherOS
deriving DecidableEq

/-- Body of in_out.adj_path before its try/except: detect the dialect and
convert only when it mismatches the host. Any IndexError raised during
detection or conversion propagates as an Except error. -/
def adj_path_body (host : HostOS) (p : PyStr) : Except PyExc PyStr :=
  match is_win p with
  | .error e => .error e
  | .ok true => if host = .linuxOS then .ok (win_to_linux p) else .ok p
  | .ok false =>
    if is_linux p then
      if host = .windowsOS then linux_to_win p else .ok p
    else .ok p

/-- in_out.adj_path: runs the body and returns the original path unchanged
when an IndexError was raised (the except IndexError branch). -/
def adj_path (host : HostOS) (p : PyStr) : PyStr :=
  match adj_path_body host p with
  | .ok q => q
  | .error _ => p

/-- A Windows path of the form <drive>:\seg1\...\segn, the shape discussed
by the path round-trip property. -/
def winPath (d : Char) (segs : List PyStr) : PyStr :=
  d :: ':' :: (segs.map (fun s => '\\' :: s)).flatten

/- ------------------------------------------------------------------ -/
/- src/in_out.py: read                                                 -/
/- ------------------------------------------------------------------ -/

/-- Extension part of os.path.splitext(p)[1][1:] (POSIX rules): the text
after the last dot of the path's basename, where leading dots of the
basename do not begin an extension. -/
def afterLastChar (c : Char) (s : PyStr) : PyStr :=
  (s.reverse.takeWhile (fun x => x ≠ c)).reverse

/-- Extension used by in_out.read: os.path.splitext(filepath)[1][1:]. -/
def splitext_ext (p : PyStr) : PyStr :=
  let base := afterLastChar '/' p
  let stem := base.dropWhile (fun x => x = '.')
  if '.' ∈ stem then afterLastChar '.' stem else []

/-- The pandas-level action a call to in_out.read dispatches to. -/
inductive PdKind where
  | excel
  | csv
  | parquet
  | sas
  | feather
  | pickleLoad
  | joblibLoad
  | yamlLoad
  | txt
deriving DecidableEq

/-- Observable result of in_out.read: which external read is performed (with
read_preprocess applied or not), a SQL query read, a model load, a
concatenation of per-file reads, or an empty dataset. -/
inductive ReadResult where
  | sqlQuery (q : PyStr)
  | modelLoad (fp : PyStr)
  | preprocessed (k : PdKind) (fp : PyStr)
  | rawRead (k : PdKind) (fp : PyStr)
  | concatenated (parts : List (Option ReadResult))
  | emptyDF

/-- The concat argument of in_out.read: a single extension string or a list
of extension strings (absent is Option.none at the call site). -/
inductive ConcatArg where
  | strArg (s : PyStr)
  | listArg (l : List PyStr)
deriving DecidableEq

/-- Extension list a ConcatArg normalises to inside read's glob branch. -/
def concatExts : ConcatArg → List PyStr
  | .strArg s => [s]
  | .listArg l => l

/-- Single-file dispatch of in_out.read, i.e. the behaviour of a read call
whose concat argument is None (also used for read's recursive per-file
calls). A filepath without extension defaults concat to "parquet" and is
handed to pandas read_parquet before the conn/model branches are reached;
an extension matching no branch falls off the end of the function and
returns Python None. -/
def read_single (conn mdl : Bool) (fp : PyStr) : Option ReadResult :=
  let ext := splitext_ext fp
  if ext = [] then some (.preprocessed .parquet fp)
  else if conn then some (.sqlQuery fp)
  else if mdl then some (.modelLoad fp)
  else if ext = "xlsx".data ∨ ext = "xls".data then some (.preprocessed .excel fp)
  else if ext = "csv".data then some (.preprocessed .csv fp)
  else if ext = "parquet".data then some (.preprocessed .parquet fp)
  else if ext = "sas7bdat".data then some (.preprocessed .sas fp)
  else if ext = "feather".data then some (.rawRead .feather fp)
  else if ext ∈ [ "pkl".data, "yml".data, "yaml".data, "pickle".data, "joblib".data] then
    if ext = "pkl".data ∨ ext = "pickle".data then some (.rawRead .pickleLoad fp)
    else if ext = "joblib".data then some (.rawRead .joblibLoad fp)
    else some (.rawRead .yamlLoad fp)
  else if ext = "txt".data then some (.rawRead .txt fp)
  else none

/-- in_out.read. globFn abstracts the filesystem glob call: it maps a glob
pattern to the list of matching files. When the path has no extension and
concat is absent, concat defaults to "parquet"; a concat that is present and
not exactly the string "parquet" triggers the directory-concatenation branch
(empty dataset when no file matches); concat equal to "parquet" dispatches
to pandas read_parquet on the path itself. -/
def read_op (globFn : PyStr → List PyStr) (fp : PyStr) (concat : Option ConcatArg)
    (conn mdl : Bool) : Option ReadResult :=
  let ext := splitext_ext fp
  let concat2 := if ext = [] ∧ concat = none then some (ConcatArg.strArg ("parquet".data)) else concat
  match concat2 with
  | none => read_single conn mdl fp
  | some c =>
    if c = ConcatArg.strArg ("parquet".data) then some (.preprocessed .parquet fp)
    else
      let folder_path := fp ++ "/".data
      let files := ((concatExts c).map (fun e => globFn (folder_path ++ "/*".data ++ e))).flatten
      if files = [] then some .emptyDF
      else some (.concatenated (files.map (read_single conn mdl)))

/- ------------------------------------------------------------------ -/
/- src/in_out.py: write                                                -/
/- ------------------------------------------------------------------ -/

/-- Extension used by in_out.write: filepath.split(".")[-1]. -/
def write_ext (fp : PyStr) : PyStr := (pySplitChar '.' fp).getLastD []

/-- Extensions accepted by in_out.write's support check. -/
def write_supported : List PyStr :=
  [ "xlsx".data, "xls".data, "csv".data, "parquet".data, "yml".data,
    "yaml".data, "pkl".data, "pickle".data, "ubj".data, "joblib".data]

/-- The branch of in_out.write a filepath dispatches to. -/
inductive WriteBranch where
  | notImplementedError
  | excelW
  | csvW
  | parquetW
  | featherW
  | serialW
  | ubjW
  | fallThrough
deriving DecidableEq

/-- Branch selection of in_out.write: an extension outside the supported
list raises NotImplementedError before any format branch runs; otherwise the
if/elif chain selects the format branch. The feather branch exists in the
chain but "feather" is not in the supported list; the "pickle" extension
passes the check yet matches no branch and falls through. -/
def write_dispatch (fp : PyStr) : WriteBranch :=
  let ext := write_ext fp
  if ext ∉ write_supported then .notImplementedError
  else if ext = "xlsx".data ∨ ext = "xls".data then .excelW
  else if ext = "csv".data then .csvW
  else if ext = "parquet".data then .parquetW
  else if ext = "feather".data then .featherW
  else if ext ∈ [ "pkl".data, "yml".data, "yaml".data, "joblib".data] then .serialW
  else if ext = "ubj".data then .ubjW
  else .fallThrough

/-- Column-name extraction of write's parquet error handler:
str(e).split("column ")[1].split(" ")[0]. Returns none exactly when the
message has no "column " occurrence, in which case the handler's indexing
raises IndexError. -/
def extract_object_column (msg : PyStr) : Option PyStr :=
  ((pySplitStr ("column ".data) msg)[1]?).map (fun s => (pySplitChar ' ' s).headD [])

/-- A dataframe column as the parquet write path observes it: a name and a
dtype. -/
structure PColumn where
  name : PyStr
  dtype : PyStr
deriving DecidableEq

/-- data[col] = data[col].astype(str): coerce the named column to text. -/
def astype_str (data : List PColumn) (col : PyStr) : List PColumn :=
  data.map (fun c => if c.name = col then { c with dtype := "str".data } else c)

/-- Outcome of the parquet write path: eventual success (with the final
column schema and the number of coercion-and-retry cycles performed), or a
propagated Python exception. -/
inductive ParquetWrite where
  | success (final : List PColumn) (coercions : Nat)
  | raised (e : PyExc)
deriving DecidableEq

/-- The parquet branch of in_out.write. The outcomes of the successive
pandas to_parquet attempts are supplied as an oracle list (none = the
attempt succeeds, some msg = the attempt raises an exception whose str() is
msg). On failure the handler parses a column name out of the message
(IndexError when the pattern is absent), coerces that column to text
(KeyError when the dataframe has no such column, raised by the data[col]
read) and re-enters write recursively. Returns Option.none only if the
oracle list is shorter than the number of attempts made. -/
def write_parquet_attempts (data : List PColumn) :
    List (Option PyStr) → Option ParquetWrite
  | [] => none
  | none :: _ => some (.success data 0)
  | some msg :: rest =>
    match extract_object_column msg with
    | none => some (.raised .indexError)
    | some col =>
      if data.any (fun c => c.name == col) then
        match write_parquet_attempts (astype_str data col) rest with
        | some (.success d n) => some (.success d (n + 1))
        | r => r
      else some (.raised (.keyError col))

/- ------------------------------------------------------------------ -/
/- src/utils.py: instrument lookups                                    -/
/- ------------------------------------------------------------------ -/

/-- One entry of the brokerage instrument master list. -/
structure Instrument where
  name : PyStr
  symbol : PyStr
  exch_seg : PyStr
  token : PyStr
deriving DecidableEq

/-- instrument["symbol"].split("-")[-1]: the symbol's suffix after the last
dash. -/
def symbolSuffix (s : PyStr) : PyStr := (pySplitChar '-' s).getLastD []

/-- utils.token_lookup: token of the first instrument whose name matches the
ticker, whose exchange segment matches, and whose symbol suffix is "EQ";
absent (None) when no instrument matches. The Python default for exchange is
"NSE". -/
def token_lookup (ticker : PyStr) (instrument_list : List Instrument)
    (exchange : PyStr) : Option PyStr :=
  (instrument_list.find? (fun i =>
    decide (i.name = ticker ∧ i.exch_seg = exchange ∧ symbolSuffix i.symbol = "EQ".data))).map
    Instrument.token

/-- utils.symbol_lookup: name of the first instrument whose token matches,
same exchange and equity-suffix filter as token_lookup. -/
def symbol_lookup (token : PyStr) (instrument_list : List Instrument)
    (exchange : PyStr) : Option PyStr :=
  (instrument_list.find? (fun i =>
    decide (i.token = token ∧ i.exch_seg = exchange ∧ symbolSuffix i.symbol = "EQ".data))).map
    Instrument.name

/- ------------------------------------------------------------------ -/
/- src/utils.py: hist_data_extended pagination                         -/
/- ------------------------------------------------------------------ -/

/-- Fuelled worker for the pagination loop of utils.hist_data_extended.
Times are in whole minutes (one day = 1440, 30 days = 43200). Each loop
iteration with temp_end < end issues one candle request for the window
(temp_st, temp_end), then advances temp_st to temp_end plus one day and
temp_end to temp_st plus 30 days, clamping temp_end to end when it
overshoots. The fuel bounds the iteration count and is never exhausted for
the fuel chosen below. -/
def hist_fetch_loop : Nat → Int → Int → Int → List (Int × Int)
  | 0, _, _, _ => []
  | f + 1, endD, temp_st, temp_end =>
    if temp_end < endD then
      (temp_st, temp_end) ::
        hist_fetch_loop f endD (temp_end + 1440)
          (if temp_end + 1440 + 43200 > endD then endD else temp_end + 1440 + 43200)
    else []

/-- The sequence of (fromdate, todate) request windows issued by
utils.hist_data_extended, in minutes, as a function of duration (days) and
today (days since the epoch of the model). The start is duration days before
today at 03:30 (minute 210); the end is yesterday at 00:00. -/
def hist_data_extended_windows (duration today : Int) : List (Int × Int) :=
  let st := (today - duration) * 1440 + 210
  let endD := (today - 1) * 1440
  hist_fetch_loop (duration.toNat + 2) endD st (st + 43200)

/- ------------------------------------------------------------------ -/
/- src/utils.py: hist_data_extended final assembly                     -/
/- ------------------------------------------------------------------ -/

/-- A pandas timestamp: an instant (minutes) plus an optional timezone
offset; tz_localize(None) clears the offset. -/
structure Stamp where
  t : Int
  tz : Option Int
deriving DecidableEq

/-- One collected candle row after set_index("date"): the timestamp index
and the tuple of column values (open, high, low, close, volume), kept
abstract as a value of type V. -/
structure CRow (V : Type) where
  date : Stamp
  vals : V
deriving DecidableEq

/-- df.index = df.index.tz_localize(None) applied to one row. -/
def tz_localize_none {V : Type} (r : CRow V) : CRow V :=
  { r with date := { r.date with tz := none } }

/-- Worker for pandas DataFrame.drop_duplicates(keep="first"): a row is kept
iff its tuple of column values was not seen earlier; the index plays no part
in the comparison. -/
def drop_dup_go {V : Type} [DecidableEq V] (seen : List V) :
    List (CRow V) → List (CRow V)
  | [] => []
  | r :: rs =>
    if r.vals ∈ seen then drop_dup_go seen rs
    else r :: drop_dup_go (r.vals :: seen) rs

/-- pandas DataFrame.drop_duplicates(keep="first") on the collected rows. -/
def drop_duplicates_first {V : Type} [DecidableEq V] (rows : List (CRow V)) :
    List (CRow V) :=
  drop_dup_go [] rows

/-- Final assembly of utils.hist_data_extended (lines 109-113): the index is
made timezone-naive and duplicate rows are dropped keeping the first
occurrence, where pandas compares only the column values, never the
timestamp index. -/
def finalize_candles {V : Type} [DecidableEq V] (rows : List (CRow V)) :
    List (CRow V) :=
  drop_duplicates_first (rows.map tz_localize_none)

/-- Keep-first deduplication stated independently of the seen-set recursion
above, following the corrected claim's words: the first row is kept, and
every later row whose value tuple repeats an already-kept row's tuple is
dropped. The embedded drop_duplicates is proved equal to this
specification, which distinguishes keep-first from keep-last. -/
def keepFirstSpec {V : Type} [DecidableEq V] : List (CRow V) → List (CRow V)
  | [] => []
  | r :: rs => r :: (keepFirstSpec rs).filter (fun x => x.vals ≠ r.vals)

/- ------------------------------------------------------------------ -/
/- Helper lemmas                                                       -/
/- ------------------------------------------------------------------ -/

theorem pySplitChar_no_sep (sep : Char) (s : PyStr) (h : sep ∉ s) :
    pySplitChar sep s = [s] := by
  induction s with
  | nil => rfl
  | cons c cs ih =>
    have hc : c ≠ sep := by rintro rfl; exact h (List.mem_cons_self _ _)
    have hcs : sep ∉ cs := fun hm => h (List.mem_cons_of_mem _ hm)
    simp [pySplitChar, hc, ih hcs]

theorem pySplitChar_append_sep (sep : Char) (a b : PyStr) (h : sep ∉ a) :
    pySplitChar sep (a ++ sep :: b) = a :: pySplitChar sep b := by
  induction a with
  | nil => simp [pySplitChar]
  | cons c a2 ih =>
    have hc : c ≠ sep := by rintro rfl; exact h (List.mem_cons_self _ _)
    have ha2 : sep ∉ a2 := fun hm => h (List.mem_cons_of_mem _ hm)
    simp [pySplitChar, hc, ih ha2]

/- ------------------------------------------------------------------ -/
/- C4: write rejects unsupported extensions, feather included          -/
/- ------------------------------------------------------------------ -/

/-- Claim C4: for every filepath whose extension (filepath.split(".")[-1])
is not one of xlsx, xls, csv, parquet, yml, yaml, pkl, pickle, ubj, joblib,
in_out.write raises NotImplementedError before any format-specific branch
runs; in particular a .feather path is rejected, and the feather branch of
the chain is unreachable. -/
theorem write_unsupported_ext_spec :
    (∀ fp : PyStr, write_ext fp ∉ write_supported →
        write_dispatch fp = WriteBranch.notImplementedError)
    ∧ write_dispatch ("data.feather".data) = WriteBranch.notImplementedError
    ∧ ∀ fp : PyStr, write_dispatch fp ≠ WriteBranch.featherW := by
  refine ⟨?_, by decide, ?_⟩
  · intro fp h
    simp only [write_dispatch]
    rw [if_pos h]
  · intro fp
    simp only [write_dispatch]
    by_cases h1 : write_ext fp ∉ write_supported
    · rw [if_pos h1]; simp
    · rw [if_neg h1]
      have hmem : write_ext fp ∈ write_supported := not_not.mp h1
      have hne : write_ext fp ≠ "feather".data := by
        intro he
        rw [he] at hmem
        revert hmem
        decide
      split_ifs <;> simp_all

/-- Witness for C4 at a concrete unsupported extension. -/
theorem write_unsupported_ext_spec_witness :
    write_dispatch ("data.json".data) = WriteBranch.notImplementedError :=
  write_unsupported_ext_spec.1 ("data.json".data) (by decide)

/- ------------------------------------------------------------------ -/
/- C7: token_lookup and symbol_lookup over a fixed instrument list     -/
/- ------------------------------------------------------------------ -/

/-- Claim C7: token_lookup and symbol_lookup are mutual inverses over a
fixed instrument list restricted to equities: for the equity instrument
(name FOO, symbol FOO-EQ, exch_seg NSE, token 123), token_lookup returns
123 and symbol_lookup returns FOO; for any instrument whose symbol suffix
after the last dash is not EQ, both lookups return no value. -/
theorem lookup_inverse_spec :
    token_lookup ("FOO".data)
      [⟨"FOO".data, "FOO-EQ".data, "NSE".data, "123".data⟩] ("NSE".data)
      = some ("123".data)
    ∧ symbol_lookup ("123".data)
      [⟨"FOO".data, "FOO-EQ".data, "NSE".data, "123".data⟩] ("NSE".data)
      = some ("FOO".data)
    ∧ ∀ (i : Instrument) (t tok : PyStr), symbolSuffix i.symbol ≠ "EQ".data →
        token_lookup t [i] ("NSE".data) = none
        ∧ symbol_lookup tok [i] ("NSE".data) = none := by
  refine ⟨by decide, by decide, ?_⟩
  intro i t tok h
  constructor <;> simp [token_lookup, symbol_lookup, List.find?, h]

/-- Witness for C7 at a concrete non-equity instrument. -/
theorem lookup_inverse_spec_witness :
    token_lookup ("FOO".data)
      [⟨"FOO".data, "FOO-FUT".data, "NSE".data, "123".data⟩] ("NSE".data) = none
    ∧ symbol_lookup ("123".data)
      [⟨"FOO".data, "FOO-FUT".data, "NSE".data, "123".data⟩] ("NSE".data) = none :=
  lookup_inverse_spec.2.2
    ⟨"FOO".data, "FOO-FUT".data, "NSE".data, "123".data⟩
    ("FOO".data) ("123".data) (by decide)

/- ------------------------------------------------------------------ -/
/- C10: read silently returns None on unrecognized extensions          -/
/- ------------------------------------------------------------------ -/

/-- Claim C10: for every filepath with a non-empty extension outside the
recognized read formats (xlsx, xls, csv, parquet, sas7bdat, feather, pkl,
pickle, joblib, yml, yaml, txt), a read with neither conn nor model
supplied returns Python None (modelled as Option.none) rather than raising
an unsupported-format error. -/
theorem read_unknown_ext_none :
    ∀ (globFn : PyStr → List PyStr) (fp : PyStr),
      splitext_ext fp ≠ [] →
      splitext_ext fp ∉
        [ "xlsx".data, "xls".data, "csv".data, "parquet".data, "sas7bdat".data,
          "feather".data, "pkl".data, "pickle".data, "joblib".data, "yml".data,
          "yaml".data, "txt".data] →
      read_op globFn fp none false false = none := by
  intro globFn fp h1 h2
  simp only [List.mem_cons, List.not_mem_nil, or_false, not_or] at h2
  obtain ⟨e1, e2, e3, e4, e5, e6, e7, e8, e9, e10, e11, e12⟩ := h2
  simp [read_op, read_single, h1, e1, e2, e3, e4, e5, e6, e7, e8, e9, e10, e11, e12]

/-- Witness for C10 at a concrete unrecognized extension. -/
theorem read_unknown_ext_none_witness :
    read_op (fun _ => []) ("data.json".data) none false false = none :=
  read_unknown_ext_none (fun _ => []) ("data.json".data) (by decide) (by decide)

/- ------------------------------------------------------------------ -/
/- C5: read's directory defaults                                       -/
/- ------------------------------------------------------------------ -/

/-- Claim C5: a read whose filepath has no extension and no concat argument
defaults concat to "parquet" and hands the path itself to pandas
read_parquet (which treats a directory as the concatenation of the parquet
files inside it); and the glob-discovery branch (a concat other than the
string "parquet") returns an empty dataset when no file matches, rather
than failing. -/
theorem read_directory_defaults_spec :
    (∀ (globFn : PyStr → List PyStr) (fp : PyStr), splitext_ext fp = [] →
        read_op globFn fp none false false
          = some (ReadResult.preprocessed PdKind.parquet fp))
    ∧ ∀ (globFn : PyStr → List PyStr) (fp : PyStr) (c : ConcatArg),
        c ≠ ConcatArg.strArg ("parquet".data) →
        (∀ e ∈ concatExts c, globFn (fp ++ "/".data ++ "/*".data ++ e) = []) →
        read_op globFn fp (some c) false false = some ReadResult.emptyDF := by
  constructor
  · intro globFn fp h
    simp [read_op, h]
  · intro globFn fp c hc hg
    simp only [read_op, List.append_assoc]
    simp [hc]
    intro x hx
    simpa using hg x hx

/-- Witness for C5 at a concrete extensionless directory path and a
concrete concat with no matching files. -/
theorem read_directory_defaults_spec_witness :
    read_op (fun _ => []) ("data_folder".data) none false false
      = some (ReadResult.preprocessed PdKind.parquet ("data_folder".data))
    ∧ read_op (fun _ => []) ("data_folder".data)
        (some (ConcatArg.strArg ("csv".data))) false false
      = some ReadResult.emptyDF :=
  ⟨read_directory_defaults_spec.1 (fun _ => []) ("data_folder".data) (by decide),
   read_directory_defaults_spec.2 (fun _ => []) ("data_folder".data)
     (ConcatArg.strArg ("csv".data)) (by decide) (fun e _ => rfl)⟩

/- ------------------------------------------------------------------ -/
/- C3: parquet write coercion-and-retry                                -/
/- ------------------------------------------------------------------ -/

theorem astype_str_any_name (data : List PColumn) (col c : PyStr) :
    (astype_str data col).any (fun x => x.name == c)
      = data.any (fun x => x.name == c) := by
  simp only [astype_str, List.any_map]
  congr 1
  funext x
  by_cases h : x.name = col <;> simp [Function.comp, h]

/-- Counterexample to claim C3: a first to_parquet failure naming column a
and a second failure naming column b do not stop after one retry; the
handler catches the second failure as well, coerces again and retries
again, here succeeding after two coercion-and-retry cycles, so the second
failure does not propagate and a second cycle does occur. -/
theorem write_parquet_retry_counterexample :
    write_parquet_attempts
      [⟨"a".data, "object".data⟩, ⟨"b".data, "object".data⟩]
      [some ("bad column a (x)".data), some ("bad column b (y)".data), none]
      = some (ParquetWrite.success
          [⟨"a".data, "str".data⟩, ⟨"b".data, "str".data⟩] 2) := by
  decide

/-- Claim C3 amended: the parquet branch of in_out.write retries
recursively without bound: every to_parquet failure whose message contains
"column <name>" for a column present in the data triggers another
coercion-and-retry cycle (a script of n such failures followed by a success
yields success after n cycles), and a failure whose message lacks the
"column " pattern raises IndexError from the handler itself rather than
re-raising the original error. -/
theorem write_parquet_retry_amended :
    (∀ (data : List PColumn) (msgs : List PyStr),
        (∀ m ∈ msgs, ∃ c, extract_object_column m = some c
            ∧ data.any (fun col => col.name == c) = true) →
        ∃ d, write_parquet_attempts data (msgs.map some ++ [none])
          = some (ParquetWrite.success d msgs.length))
    ∧ ∀ (data : List PColumn) (msg : PyStr) (rest : List (Option PyStr)),
        extract_object_column msg = none →
        write_parquet_attempts data (some msg :: rest)
          = some (ParquetWrite.raised PyExc.indexError) := by
  constructor
  · intro data msgs
    induction msgs generalizing data with
    | nil => exact fun _ => ⟨data, rfl⟩
    | cons m ms ih =>
      intro h
      obtain ⟨c, hc, hany⟩ := h m (List.mem_cons_self _ _)
      have htail : ∀ m2 ∈ ms, ∃ c2, extract_object_column m2 = some c2
          ∧ (astype_str data c).any (fun col => col.name == c2) = true := by
        intro m2 hm2
        obtain ⟨c2, hc2, hany2⟩ := h m2 (List.mem_cons_of_mem _ hm2)
        exact ⟨c2, hc2, by rw [astype_str_any_name]; exact hany2⟩
      obtain ⟨d, hd⟩ := ih (astype_str data c) htail
      refine ⟨d, ?_⟩
      simp only [List.map_cons, List.cons_append, write_parquet_attempts, hc, hany,
        if_true, List.append_eq, hd, List.length_cons]
  · intro data msg rest h
    simp [write_parquet_attempts, h]

/-- Witness for C3 amended: one column-naming failure then success gives
success after one cycle, and a failure without the pattern raises
IndexError. -/
theorem write_parquet_retry_amended_witness :
    (∃ d, write_parquet_attempts [⟨"a".data, "object".data⟩]
        [some ("bad column a (x)".data), none]
        = some (ParquetWrite.success d 1))
    ∧ write_parquet_attempts [] [some ("no pattern here".data)]
        = some (ParquetWrite.raised PyExc.indexError) := by
  constructor
  · exact write_parquet_retry_amended.1 [⟨"a".data, "object".data⟩]
      [ "bad column a (x)".data]
      (fun m hm => by
        rw [List.mem_singleton] at hm
        subst hm
        exact ⟨"a".data, by decide, by decide⟩)
  · exact write_parquet_retry_amended.2 [] ("no pattern here".data) [] (by decide)

/- ------------------------------------------------------------------ -/
/- C2: duplicate handling in hist_data_extended's final assembly       -/
/- ------------------------------------------------------------------ -/

theorem drop_dup_go_sublist {V : Type} [DecidableEq V] (seen : List V)
    (rs : List (CRow V)) : List.Sublist (drop_dup_go seen rs) rs := by
  induction rs generalizing seen with
  | nil => simp [drop_dup_go]
  | cons r rs ih =>
    simp only [drop_dup_go]
    split
    · exact (ih seen).cons r
    · exact (ih _).cons₂ r

theorem drop_dup_go_not_seen {V : Type} [DecidableEq V] (seen : List V)
    (rs : List (CRow V)) : ∀ r ∈ drop_dup_go seen rs, r.vals ∉ seen := by
  induction rs generalizing seen with
  | nil => simp [drop_dup_go]
  | cons r rs ih =>
    simp only [drop_dup_go]
    split
    · exact ih seen
    · intro x hx
      rcases List.mem_cons.mp hx with rfl | hx
      · assumption
      · intro hxs
        exact ih (r.vals :: seen) x hx (List.mem_cons_of_mem _ hxs)

theorem drop_dup_go_pairwise {V : Type} [DecidableEq V] (seen : List V)
    (rs : List (CRow V)) :
    (drop_dup_go seen rs).Pairwise (fun a b => a.vals ≠ b.vals) := by
  induction rs generalizing seen with
  | nil => simp [drop_dup_go]
  | cons r rs ih =>
    simp only [drop_dup_go]
    split
    · exact ih seen
    · refine List.Pairwise.cons ?_ (ih _)
      intro b hb he
      exact drop_dup_go_not_seen (r.vals :: seen) rs b hb
        (he ▸ List.mem_cons_self _ _)

theorem drop_dup_go_complete {V : Type} [DecidableEq V] (seen : List V)
    (rs : List (CRow V)) :
    ∀ r ∈ rs, r.vals ∈ seen ∨ ∃ r2 ∈ drop_dup_go seen rs, r2.vals = r.vals := by
  induction rs generalizing seen with
  | nil => simp
  | cons a rs ih =>
    intro r hr
    rcases List.mem_cons.mp hr with rfl | hr
    · by_cases hs : r.vals ∈ seen
      · exact Or.inl hs
      · refine Or.inr ⟨r, ?_, rfl⟩
        simp [drop_dup_go, hs]
    · by_cases hs : a.vals ∈ seen
      · rcases ih seen r hr with h | ⟨r2, h2, he⟩
        · exact Or.inl h
        · exact Or.inr ⟨r2, by simp [drop_dup_go, hs]; exact h2, he⟩
      · rcases ih (a.vals :: seen) r hr with h | ⟨r2, h2, he⟩
        · rcases List.mem_cons.mp h with h | h
          · exact Or.inr ⟨a, by simp [drop_dup_go, hs], h.symm⟩
          · exact Or.inl h
        · exact Or.inr ⟨r2, by simp [drop_dup_go, hs]; exact Or.inr h2, he⟩

theorem filter_vals_ne_absorb {V : Type} [DecidableEq V] (seen : List V)
    (v : V) (hv : v ∈ seen) (l : List (CRow V)) :
    ((l.filter (fun x => x.vals ≠ v)).filter (fun x => x.vals ∉ seen)
        : List (CRow V))
      = l.filter (fun x => x.vals ∉ seen) := by
  rw [List.filter_filter]
  apply List.filter_congr
  intro a _
  by_cases h1 : a.vals = v
  · have h2 : a.vals ∈ seen := h1 ▸ hv
    simp [h1, h2, hv]
  · simp [h1]

theorem filter_vals_notmem_cons {V : Type} [DecidableEq V] (seen : List V)
    (v : V) (l : List (CRow V)) :
    (l.filter (fun x => x.vals ∉ v :: seen) : List (CRow V))
      = (l.filter (fun x => x.vals ≠ v)).filter (fun x => x.vals ∉ seen) := by
  rw [List.filter_filter]
  apply List.filter_congr
  intro a _
  by_cases h1 : a.vals = v
  · simp [List.mem_cons, h1]
  · by_cases h2 : a.vals ∈ seen <;> simp [List.mem_cons, h1, h2]

theorem drop_dup_go_eq_keepFirst {V : Type} [DecidableEq V]
    (m : List (CRow V)) :
    ∀ seen : List V,
      drop_dup_go seen m = (keepFirstSpec m).filter (fun x => x.vals ∉ seen) := by
  induction m with
  | nil => intro seen; rfl
  | cons r rs ih =>
    intro seen
    by_cases hs : r.vals ∈ seen
    · simp only [drop_dup_go, if_pos hs, keepFirstSpec]
      rw [ih seen, List.filter_cons]
      rw [if_neg (by simp [hs])]
      exact (filter_vals_ne_absorb seen r.vals hs (keepFirstSpec rs)).symm
    · simp only [drop_dup_go, if_neg hs, keepFirstSpec]
      rw [ih (r.vals :: seen), List.filter_cons]
      rw [if_pos (by simp [hs])]
      rw [filter_vals_notmem_cons seen r.vals (keepFirstSpec rs)]

/-- Counterexample to claim C2: two collected rows carrying the same
timestamp but different column values are both kept by the final assembly,
because pandas drop_duplicates compares only the columns, never the
timestamp index; so it is not the case that of two same-timestamp rows only
the first occurrence is kept. -/
theorem finalize_candles_claim_counterexample :
    finalize_candles [⟨⟨100, some 330⟩, (11 : Int)⟩, ⟨⟨100, some 330⟩, 22⟩]
      = [⟨⟨100, none⟩, 11⟩, ⟨⟨100, none⟩, 22⟩] := by
  decide

/-- Claim C2 amended: the final combined series of hist_data_extended is a
subsequence of the collected rows with the timezone stripped from every
timestamp (so the final index is timezone-naive); rows are deduplicated
keeping the first occurrence, where duplicates are rows whose tuple of
column values (open, high, low, close, volume) repeats an earlier row's
tuple, irrespective of the timestamp: the series equals the keep-first
specification (every later row whose values repeat an already-kept row's
values is dropped, the earlier row is retained), so the surviving rows
have pairwise distinct value tuples and every collected row's value tuple
survives. -/
theorem finalize_candles_amended {V : Type} [DecidableEq V]
    (rows : List (CRow V)) :
    (∀ r ∈ finalize_candles rows, r.date.tz = none)
    ∧ List.Sublist (finalize_candles rows) (rows.map tz_localize_none)
    ∧ finalize_candles rows = keepFirstSpec (rows.map tz_localize_none)
    ∧ (finalize_candles rows).Pairwise (fun a b => a.vals ≠ b.vals)
    ∧ ∀ r ∈ rows, ∃ r2 ∈ finalize_candles rows, r2.vals = r.vals := by
  refine ⟨?_, ?_, ?_, ?_, ?_⟩
  · intro r hr
    have hm : r ∈ rows.map tz_localize_none :=
      (drop_dup_go_sublist [] (rows.map tz_localize_none)).subset hr
    rcases List.mem_map.mp hm with ⟨r0, _, rfl⟩
    rfl
  · exact drop_dup_go_sublist [] (rows.map tz_localize_none)
  · show drop_dup_go [] (rows.map tz_localize_none)
      = keepFirstSpec (rows.map tz_localize_none)
    rw [drop_dup_go_eq_keepFirst (rows.map tz_localize_none) []]
    exact List.filter_eq_self.mpr (fun a _ => by simp)
  · exact drop_dup_go_pairwise [] (rows.map tz_localize_none)
  · intro r hr
    have hm : tz_localize_none r ∈ rows.map tz_localize_none :=
      List.mem_map_of_mem _ hr
    rcases drop_dup_go_complete [] (rows.map tz_localize_none)
        (tz_localize_none r) hm with h | ⟨r2, h2, he⟩
    · exact absurd h (List.not_mem_nil _)
    · exact ⟨r2, h2, he⟩

/-- Witness for C2 amended: two rows with equal values at different
timestamps collapse to the first row only (timestamp 1, timezone
stripped), exhibiting the value-repeat drop that keeps the earlier
occurrence; plus the survival conjunct exercised on a one-row input. -/
theorem finalize_candles_amended_witness :
    finalize_candles [⟨⟨1, some 60⟩, (7 : Int)⟩, ⟨⟨2, none⟩, 7⟩]
      = [⟨⟨1, none⟩, 7⟩]
    ∧ ∃ r2 ∈ finalize_candles [⟨⟨5, some 60⟩, (9 : Int)⟩], r2.vals = 9 := by
  constructor
  · rw [(finalize_candles_amended
      [⟨⟨1, some 60⟩, (7 : Int)⟩, ⟨⟨2, none⟩, 7⟩]).2.2.1]
    decide
  · exact (finalize_candles_amended [⟨⟨5, some 60⟩, (9 : Int)⟩]).2.2.2.2
      ⟨⟨5, some 60⟩, 9⟩ (List.mem_singleton.mpr rfl)

/- ------------------------------------------------------------------ -/
/- C1: hist_data_extended pagination                                   -/
/- ------------------------------------------------------------------ -/

theorem hist_fetch_loop_stop (f : Nat) (endD tst ten : Int) (h : ¬ ten < endD) :
    hist_fetch_loop f endD tst ten = [] := by
  cases f <;> simp [hist_fetch_loop, h]

theorem hist_fetch_loop_step (f : Nat) (endD tst ten : Int) (h : ten < endD) :
    hist_fetch_loop (f + 1) endD tst ten
      = (tst, ten) :: hist_fetch_loop f endD (ten + 1440)
          (if ten + 1440 + 43200 > endD then endD else ten + 1440 + 43200) := by
  simp [hist_fetch_loop, h]

/-- Counterexample to claim C1: at today = 1000, a duration of 10 days (a
date range of 9 days minus 3.5 hours, shorter than 30 days) issues zero
candle requests, not one, because the loop guard temp_end < end_date fails
immediately; and a duration of 66 days (a 65-day range) issues two
requests, not three: the third window, whose end would be clamped to the
overall end date, makes the guard false and is never requested. -/
theorem hist_windows_claim_counterexample :
    (hist_data_extended_windows 10 1000).length = 0
    ∧ (hist_data_extended_windows 66 1000).length = 2 := by
  decide

/-- Claim C1 amended: for every duration of at most 31 days (every duration
whose requested range is shorter than 30 days) hist_data_extended issues no
request at all; for duration 66 (a 65-day range) it issues exactly two
requests, the first window running 30 days from the start, the second
starting one day after the first window's end and again running 30 days;
the final clamped window up to the overall end date is computed but never
requested. -/
theorem hist_windows_amended :
    (∀ duration today : Int, duration ≤ 31 →
        hist_data_extended_windows duration today = [])
    ∧ ∀ today : Int,
        hist_data_extended_windows 66 today
          = [((today - 66) * 1440 + 210, (today - 66) * 1440 + 43410),
             ((today - 66) * 1440 + 44850, (today - 66) * 1440 + 88050)] := by
  constructor
  · intro duration today h
    simp only [hist_data_extended_windows]
    exact hist_fetch_loop_stop _ _ _ _ (by omega)
  · intro today
    simp only [hist_data_extended_windows]
    rw [show (66 : Int).toNat + 2 = 67 + 1 from rfl]
    rw [hist_fetch_loop_step 67 ((today - 1) * 1440) ((today - 66) * 1440 + 210)
      ((today - 66) * 1440 + 210 + 43200) (by omega)]
    rw [if_neg (show ¬ (today - 66) * 1440 + 210 + 43200 + 1440 + 43200
      > (today - 1) * 1440 by omega)]
    rw [show (67 : Nat) = 66 + 1 from rfl]
    rw [hist_fetch_loop_step 66 ((today - 1) * 1440)
      ((today - 66) * 1440 + 210 + 43200 + 1440)
      ((today - 66) * 1440 + 210 + 43200 + 1440 + 43200) (by omega)]
    rw [if_pos (show (today - 66) * 1440 + 210 + 43200 + 1440 + 43200 + 1440 + 43200
      > (today - 1) * 1440 by omega)]
    rw [hist_fetch_loop_stop 66 ((today - 1) * 1440)
      ((today - 66) * 1440 + 210 + 43200 + 1440 + 43200 + 1440)
      ((today - 1) * 1440) (by omega)]
    simp only [List.cons.injEq, Prod.mk.injEq, and_true]
    refine ⟨⟨trivial, by omega⟩, by omega, by omega⟩

/-- Witness for C1 amended at a concrete short duration. -/
theorem hist_windows_amended_witness :
    hist_data_extended_windows 20 500 = [] :=
  hist_windows_amended.1 20 500 (by decide)

/- ------------------------------------------------------------------ -/
/- C9: win_to_linux is idempotent after the first application          -/
/- ------------------------------------------------------------------ -/

theorem pyJoin_nil_cons (x : PyStr) (xs : List PyStr) :
    pyJoin [] (x :: xs) = x ++ pyJoin [] xs := by
  cases xs with
  | nil => simp [pyJoin]
  | cons y ys => simp [pyJoin]

theorem win_to_linux_starts_slash (p : PyStr) (hp : is_linux p = false) :
    ∃ w, win_to_linux p = '/' :: w := by
  simp only [win_to_linux]
  rw [if_neg (by simp [hp])]
  rw [pyJoin_nil_cons]
  refine ⟨pyReplaceChar '\\' '/'
    (['m', 'n', 't', '/'] ++ pyLower ((pySplitChar ':' p).headD [])
      ++ pyJoin [] (pySplitChar ':' p).tail), ?_⟩
  simp [pyReplaceChar]

/-- Claim C9: for every Windows-style path (is_win true), win_to_linux is
idempotent after the first application: the first application yields a path
beginning with a slash, and win_to_linux returns any POSIX-style input
unchanged. -/
theorem win_to_linux_idempotent :
    ∀ p : PyStr, is_win p = .ok true →
      win_to_linux (win_to_linux p) = win_to_linux p := by
  intro p h
  rcases p with _ | ⟨c0, _ | ⟨c1, rest⟩⟩
  · simp [is_win] at h
  · simp [is_win] at h
  · simp only [is_win, Except.ok.injEq, Bool.and_eq_true] at h
    obtain ⟨h1, h2⟩ := h
    have hc0 : c0 ≠ '/' := by
      intro he
      subst he
      exact absurd h2 (by decide)
    have hlin : is_linux (c0 :: c1 :: rest) = false := by simp [is_linux, hc0]
    obtain ⟨w, hw⟩ := win_to_linux_starts_slash _ hlin
    rw [hw]
    simp [win_to_linux, is_linux]

/-- Witness for C9 at a concrete Windows-style path. -/
theorem win_to_linux_idempotent_witness :
    win_to_linux (win_to_linux ("D:\\data".data)) = win_to_linux ("D:\\data".data) :=
  win_to_linux_idempotent ("D:\\data".data) (by rfl)

/- ------------------------------------------------------------------ -/
/- C8: adj_path is total and converts only on dialect mismatch         -/
/- ------------------------------------------------------------------ -/

/-- Claim C8: adj_path never raises (the model returns a plain string for
every input): a Windows-style path on a Windows host and a POSIX-style path
on a Linux host are returned unchanged; an IndexError during dialect
detection (e.g. on the empty path) yields the input unchanged; conversion
happens exactly on a dialect mismatch, with an IndexError inside the
conversion itself also caught and yielding the input unchanged. -/
theorem adj_path_total_spec :
    (∀ p : PyStr, is_win p = .ok true → adj_path .windowsOS p = p)
    ∧ (∀ p : PyStr, is_linux p = true → adj_path .linuxOS p = p)
    ∧ (∀ (host : HostOS) (p : PyStr) (e : PyExc), is_win p = .error e →
        adj_path host p = p)
    ∧ (∀ p : PyStr, is_win p = .ok true → adj_path .linuxOS p = win_to_linux p)
    ∧ ∀ p : PyStr, is_win p = .ok false → is_linux p = true →
        adj_path .windowsOS p
          = match linux_to_win p with | .ok q => q | .error _ => p := by
  refine ⟨?_, ?_, ?_, ?_, ?_⟩
  · intro p h
    simp [adj_path, adj_path_body, h]
  · intro p h
    cases hiw : is_win p with
    | error e => simp [adj_path, adj_path_body, hiw]
    | ok b =>
      cases b with
      | false => simp [adj_path, adj_path_body, hiw, h]
      | true =>
        exfalso
        rcases p with _ | ⟨c0, _ | ⟨c1, rest⟩⟩
        · simp [is_win] at hiw
        · simp [is_win] at hiw
        · simp only [is_win, Except.ok.injEq, Bool.and_eq_true] at hiw
          have hc0 : c0 = '/' := by simpa [is_linux] using h
          subst hc0
          exact absurd hiw.2 (by decide)
  · intro host p e h
    simp [adj_path, adj_path_body, h]
  · intro p h
    simp [adj_path, adj_path_body, h]
  · intro p h1 h2
    simp [adj_path, adj_path_body, h1, h2]

/-- Witness for C8 at concrete paths of each shape. -/
theorem adj_path_total_spec_witness :
    adj_path .windowsOS ("C:\\x".data) = "C:\\x".data
    ∧ adj_path .linuxOS ("/mnt/c/x".data) = "/mnt/c/x".data
    ∧ adj_path .linuxOS [] = []
    ∧ adj_path .linuxOS ("C:\\x".data) = win_to_linux ("C:\\x".data)
    ∧ adj_path .windowsOS ("/mnt/c/x".data)
        = match linux_to_win ("/mnt/c/x".data) with
          | .ok q => q
          | .error _ => "/mnt/c/x".data :=
  ⟨adj_path_total_spec.1 _ (by rfl),
   adj_path_total_spec.2.1 _ (by rfl),
   adj_path_total_spec.2.2.1 .linuxOS [] .indexError (by rfl),
   adj_path_total_spec.2.2.2.1 _ (by rfl),
   adj_path_total_spec.2.2.2.2 _ (by rfl) (by rfl)⟩

/- ------------------------------------------------------------------ -/
/- C6: round trip of linux_to_win after win_to_linux                   -/
/- ------------------------------------------------------------------ -/

theorem upper_drive_facts :
    ∀ c ∈ "ABCDEFGHIJKLMNOPQRSTUVWXYZ".data,
      c.isUpper = true ∧ c ≠ '/' ∧ c ≠ ':' ∧ c ≠ '\\'
      ∧ Char.toUpper (Char.toLower c) = c
      ∧ Char.toLower c ≠ '/' ∧ Char.toLower c ≠ '\\' := by
  decide

theorem leadsWith_append (a b : PyStr) : leadsWith a (a ++ b) = true := by
  induction a with
  | nil => rfl
  | cons c cs ih => simp [leadsWith, ih]

theorem splitAtSub_lead (pat t : PyStr) (hp : pat ≠ []) :
    splitAtSub pat (pat ++ t) = some ([], t) := by
  cases pat with
  | nil => exact absurd rfl hp
  | cons p ps =>
    have hcons : (p :: ps) ++ t = p :: (ps ++ t) := rfl
    rw [hcons]
    simp only [splitAtSub]
    rw [if_pos (by rw [← hcons]; exact leadsWith_append (p :: ps) t)]
    rw [← hcons, List.drop_left]

theorem pyReplaceFuel_none (f : Nat) (pat rep s : PyStr)
    (h : splitAtSub pat s = none) : pyReplaceFuel f pat rep s = s := by
  cases f <;> simp [pyReplaceFuel, h]

theorem pyReplace_lead_none (pat rep t : PyStr) (hp : pat ≠ [])
    (ht : splitAtSub pat t = none) :
    pyReplace pat rep (pat ++ t) = rep ++ t := by
  unfold pyReplace
  have hlen : (pat ++ t).length = (pat.length - 1 + t.length) + 1 := by
    cases pat with
    | nil => exact absurd rfl hp
    | cons c cs =>
      simp only [List.length_append, List.length_cons]
      omega
  rw [hlen]
  simp only [pyReplaceFuel, splitAtSub_lead pat t hp]
  rw [pyReplaceFuel_none _ _ _ _ ht]
  simp

theorem splitAtSub_none_of_no_slash (s : PyStr) (h : ∀ c ∈ s, c ≠ '/') :
    splitAtSub ("/mnt/".data) s = none := by
  induction s with
  | nil => rfl
  | cons c cs ih =>
    have hc : c ≠ '/' := h c (List.mem_cons_self _ _)
    have hcs : ∀ x ∈ cs, x ≠ '/' := fun x hx => h x (List.mem_cons_of_mem _ hx)
    simp only [splitAtSub]
    rw [if_neg (by simp [leadsWith, Ne.symm hc])]
    rw [ih hcs]

theorem leads_mem (pat s : PyStr) (h : leadsWith pat s = true) :
    ∀ c ∈ pat, c ∈ s := by
  induction pat generalizing s with
  | nil => intro c hc; simp at hc
  | cons p ps ih =>
    cases s with
    | nil => simp [leadsWith] at h
    | cons a as =>
      simp only [leadsWith, Bool.and_eq_true, beq_iff_eq] at h
      obtain ⟨rfl, h2⟩ := h
      intro c hc
      rcases List.mem_cons.mp hc with rfl | hc
      · exact List.mem_cons_self _ _
      · exact List.mem_cons_of_mem _ (ih as h2 c hc)

theorem mnt_lead_false_flat (s0 : PyStr) (hs : ∀ c ∈ s0, c ≠ '/') :
    leadsWith ("mnt/".data) s0 = false := by
  by_contra h
  have h2 : leadsWith ("mnt/".data) s0 = true := by
    revert h
    cases leadsWith ("mnt/".data) s0 <;> simp
  exact hs '/' (leads_mem _ _ h2 '/' (by decide)) rfl

theorem mnt_lead_false_sep (s0 w : PyStr) (hne : s0 ≠ [])
    (hs : ∀ c ∈ s0, c ≠ '/') (hmnt : s0 ≠ "mnt".data) :
    leadsWith ("mnt/".data) (s0 ++ '/' :: w) = false := by
  rcases s0 with _ | ⟨c1, _ | ⟨c2, _ | ⟨c3, _ | ⟨c4, s4⟩⟩⟩⟩
  · exact absurd rfl hne
  · simp [leadsWith]
  · simp [leadsWith]
  · by_cases h1 : c1 = 'm'
    · by_cases h2 : c2 = 'n'
      · by_cases h3 : c3 = 't'
        · subst h1; subst h2; subst h3; exact absurd rfl hmnt
        · simp [leadsWith, beq_iff_eq, (show ('t' : Char) ≠ c3 from fun hh => h3 hh.symm)]
      · simp [leadsWith, beq_iff_eq, (show ('n' : Char) ≠ c2 from fun hh => h2 hh.symm)]
    · simp [leadsWith, beq_iff_eq, (show ('m' : Char) ≠ c1 from fun hh => h1 hh.symm)]
  · have hc4 : c4 ≠ '/' := hs c4 (by simp)
    simp [leadsWith, beq_iff_eq, (show ('/' : Char) ≠ c4 from fun hh => hc4 hh.symm)]

theorem splitAtSub_mnt_none :
    ∀ (segs : List PyStr) (a : PyStr), (∀ c ∈ a, c ≠ '/') →
      (∀ s ∈ segs, s ≠ [] ∧ (∀ c ∈ s, c ≠ '/') ∧ s ≠ "mnt".data) →
      splitAtSub ("/mnt/".data)
        (a ++ (segs.map (fun s => '/' :: s)).flatten) = none := by
  intro segs
  induction segs with
  | nil =>
    intro a ha _
    simpa using splitAtSub_none_of_no_slash a ha
  | cons s0 rest ih =>
    intro a
    induction a with
    | nil =>
      intro _ hsegs
      obtain ⟨h0ne, h0s, h0m⟩ := hsegs s0 (List.mem_cons_self _ _)
      have hrest : ∀ s ∈ rest, s ≠ [] ∧ (∀ c ∈ s, c ≠ '/') ∧ s ≠ "mnt".data :=
        fun s hs => hsegs s (List.mem_cons_of_mem _ hs)
      have hlead : leadsWith ("mnt/".data)
          (s0 ++ (rest.map (fun s => '/' :: s)).flatten) = false := by
        rcases rest with _ | ⟨r0, rest2⟩
        · simpa using mnt_lead_false_flat s0 h0s
        · have hshape :
              s0 ++ ((r0 :: rest2).map (fun s => '/' :: s)).flatten
                = s0 ++ '/' :: (r0 ++ (rest2.map (fun s => '/' :: s)).flatten) := by
            simp
          rw [hshape]
          exact mnt_lead_false_sep s0 _ h0ne h0s h0m
      simp only [List.map_cons, List.flatten_cons, List.nil_append, List.cons_append]
      simp only [splitAtSub]
      rw [if_neg (by simp [leadsWith, hlead])]
      rw [ih s0 h0s hrest]
    | cons c a2 iha =>
      intro ha hsegs
      have hc : c ≠ '/' := ha c (List.mem_cons_self _ _)
      have ha2 : ∀ x ∈ a2, x ≠ '/' := fun x hx => ha x (List.mem_cons_of_mem _ hx)
      simp only [List.cons_append, splitAtSub]
      rw [if_neg (by simp [leadsWith, Ne.symm hc])]
      have hiha := iha ha2 hsegs
      rw [show ("/mnt/".data : PyStr) = ['/', 'm', 'n', 't', '/'] from rfl] at hiha
      simp only [List.append_eq]
      rw [hiha]

theorem mem_flatten_sep (sep : Char) (segs : List PyStr) (c : Char)
    (h : c ∈ (segs.map (fun s => sep :: s)).flatten) :
    c = sep ∨ ∃ s ∈ segs, c ∈ s := by
  rw [List.mem_flatten] at h
  obtain ⟨l, hl, hc⟩ := h
  rcases List.mem_map.mp hl with ⟨s, hs, rfl⟩
  rcases List.mem_cons.mp hc with rfl | hc
  · exact Or.inl rfl
  · exact Or.inr ⟨s, hs, hc⟩

theorem pyReplaceChar_eq_self (a b : Char) (s : PyStr) (h : ∀ c ∈ s, c ≠ a) :
    pyReplaceChar a b s = s := by
  induction s with
  | nil => rfl
  | cons c cs ih =>
    have hcs := ih (fun x hx => h x (List.mem_cons_of_mem _ hx))
    simp only [pyReplaceChar, List.map_cons] at hcs ⊢
    rw [if_neg (h c (List.mem_cons_self _ _))]
    rw [hcs]

theorem pyReplaceChar_backslash_flatten (segs : List PyStr)
    (h : ∀ s ∈ segs, ∀ c ∈ s, c ≠ '\\') :
    pyReplaceChar '\\' '/' ((segs.map (fun s => '\\' :: s)).flatten)
      = (segs.map (fun s => '/' :: s)).flatten := by
  induction segs with
  | nil => rfl
  | cons s ss ih =>
    have hs := pyReplaceChar_eq_self '\\' '/' s (h s (List.mem_cons_self _ _))
    have ihh := ih (fun x hx => h x (List.mem_cons_of_mem _ hx))
    simp only [pyReplaceChar, List.map_cons, List.flatten_cons, List.map_append] at hs ihh ⊢
    simp [hs, ihh]

theorem pySplitChar_slash_flatten :
    ∀ (segs : List PyStr) (a : PyStr), '/' ∉ a → (∀ s ∈ segs, '/' ∉ s) →
      pySplitChar '/' (a ++ (segs.map (fun s => '/' :: s)).flatten) = a :: segs := by
  intro segs
  induction segs with
  | nil =>
    intro a ha _
    simpa using pySplitChar_no_sep '/' a ha
  | cons s0 rest ih =>
    intro a ha hs
    simp only [List.map_cons, List.flatten_cons]
    have hshape : a ++ (('/' :: s0) ++ (rest.map (fun s => '/' :: s)).flatten)
        = a ++ '/' :: (s0 ++ (rest.map (fun s => '/' :: s)).flatten) := by simp
    rw [hshape, pySplitChar_append_sep '/' a _ ha,
      ih s0 (hs s0 (List.mem_cons_self _ _)) (fun x hx => hs x (List.mem_cons_of_mem _ hx))]

theorem pyJoin_backslash_cons (x : PyStr) (xs : List PyStr) :
    pyJoin ['\\'] (x :: xs) = x ++ (xs.map (fun s => '\\' :: s)).flatten := by
  induction xs generalizing x with
  | nil => simp [pyJoin]
  | cons y ys ih =>
    simp only [pyJoin, List.map_cons, List.flatten_cons, ih y]
    simp [List.append_assoc]

theorem win_to_linux_winPath (d : Char) (segs : List PyStr)
    (hd : d ∈ "ABCDEFGHIJKLMNOPQRSTUVWXYZ".data)
    (hsegs : ∀ s ∈ segs, s ≠ []
      ∧ (∀ c ∈ s, c ≠ ':' ∧ c ≠ '\\' ∧ c ≠ '/') ∧ s ≠ "mnt".data) :
    win_to_linux (winPath d segs)
      = "/mnt/".data ++ Char.toLower d :: (segs.map (fun s => '/' :: s)).flatten := by
  obtain ⟨hup, hdsl, hdco, hdbs, hul, hlsl, hlbs⟩ := upper_drive_facts d hd
  have hlin : is_linux (winPath d segs) = false := by
    simp [is_linux, winPath, hdsl]
  have hB : ':' ∉ (segs.map (fun s => '\\' :: s)).flatten := by
    intro hmem
    rcases mem_flatten_sep '\\' segs ':' hmem with h | ⟨s, hs, hcs⟩
    · exact absurd h (by decide)
    · exact ((hsegs s hs).2.1 ':' hcs).1 rfl
  have hsplit : pySplitChar ':' (winPath d segs)
      = [[d], (segs.map (fun s => '\\' :: s)).flatten] := by
    have h1 := pySplitChar_append_sep ':' [d]
      ((segs.map (fun s => '\\' :: s)).flatten)
      (by simp only [List.mem_singleton]; exact fun h => hdco h.symm)
    rw [pySplitChar_no_sep ':' _ hB] at h1
    simpa [winPath] using h1
  simp only [win_to_linux]
  rw [if_neg (by simp [hlin])]
  rw [hsplit]
  simp only [List.headD_cons, List.tail_cons]
  rw [pyJoin_nil_cons]
  have hBmap := pyReplaceChar_backslash_flatten segs
    (fun s hs c hc => ((hsegs s hs).2.1 c hc).2.1)
  simp only [pyReplaceChar, pyLower, pyJoin, List.map_append, List.map_cons,
    List.map_nil] at hBmap ⊢
  rw [hBmap]
  simp [hlbs]

/-- Counterexample to claim C6: the Windows path C:\mnt\x of the
representative form (drive letter plus backslash-separated segments) does
not round-trip: win_to_linux maps it to /mnt/c/mnt/x, and linux_to_win
removes every occurrence of "/mnt/" (not only the leading one), collapsing
it to CX: instead of recovering C:\mnt\x. -/
theorem win_roundtrip_counterexample :
    win_to_linux ("C:\\mnt\\x".data) = "/mnt/c/mnt/x".data
    ∧ linux_to_win ("/mnt/c/mnt/x".data) = Except.ok ("CX:".data)
    ∧ "CX:".data ≠ "C:\\mnt\\x".data := by
  exact ⟨rfl, rfl, by decide⟩

/-- Claim C6 amended: posix_to_windows (linux_to_win) inverts
windows_to_posix (win_to_linux) on Windows paths of the form
drive:\seg1\...\segn whenever the drive is an uppercase letter and every
segment is non-empty, contains none of the characters colon, backslash and
slash, and no segment is the string "mnt" (a segment equal to "mnt"
recreates the substring "/mnt/" that linux_to_win strips everywhere, as
the counterexample shows). -/
theorem win_roundtrip_amended (d : Char) (segs : List PyStr)
    (hd : d ∈ "ABCDEFGHIJKLMNOPQRSTUVWXYZ".data)
    (hsegs : ∀ s ∈ segs, s ≠ []
      ∧ (∀ c ∈ s, c ≠ ':' ∧ c ≠ '\\' ∧ c ≠ '/') ∧ s ≠ "mnt".data) :
    linux_to_win (win_to_linux (winPath d segs)) = Except.ok (winPath d segs) := by
  obtain ⟨hup, hdsl, hdco, hdbs, hul, hlsl, hlbs⟩ := upper_drive_facts d hd
  rw [win_to_linux_winPath d segs hd hsegs]
  have hw : is_win ("/mnt/".data
      ++ Char.toLower d :: (segs.map (fun s => '/' :: s)).flatten) = .ok false := rfl
  simp only [linux_to_win, hw]
  have hno : splitAtSub ("/mnt/".data)
      (Char.toLower d :: (segs.map (fun s => '/' :: s)).flatten) = none := by
    have h1 := splitAtSub_mnt_none segs [Char.toLower d]
      (by intro c hc; rcases List.mem_singleton.mp hc with rfl; exact hlsl)
      (fun s hs => ⟨(hsegs s hs).1,
        fun c hc => ((hsegs s hs).2.1 c hc).2.2, (hsegs s hs).2.2⟩)
    simpa using h1
  have hrep := pyReplace_lead_none ("/mnt/".data) []
    (Char.toLower d :: (segs.map (fun s => '/' :: s)).flatten) (by decide) hno
  rw [List.nil_append] at hrep
  rw [hrep]
  have hsp := pySplitChar_slash_flatten segs [Char.toLower d]
    (by simp only [List.mem_singleton]; exact fun h => hlsl h.symm)
    (fun s hs hmem => ((hsegs s hs).2.1 '/' hmem).2.2 rfl)
  rw [List.singleton_append] at hsp
  rw [hsp]
  simp only [List.headD_cons, List.tail_cons]
  have hupper : pyUpper [Char.toLower d] = [d] := by simp [pyUpper, hul]
  rw [hupper, pyJoin_backslash_cons]
  simp [winPath]

/-- Witness for C6 amended at the representative path C:\Users\x. -/
theorem win_roundtrip_amended_witness :
    linux_to_win (win_to_linux (winPath 'C' [ "Users".data, "x".data]))
      = Except.ok (winPath 'C' [ "Users".data, "x".data]) :=
  win_roundtrip_amended 'C' [ "Users".data, "x".data] (by decide) (by decide)
